import Mathlib

/-!
Verification development for a small in-process domain layer: accounts
(users) and orders backed by an in-memory store.

The embedding mirrors the C++ sources:
* `contracts.User`, `contracts.Order`, `contracts.OrderStatus` — the data
  structures of `user_contract.hpp` / `order_contract.hpp` (the C++ `double`
  amount is modelled exactly as a rational number `Rat`);
* `services.InMemoryDatabase` — the private state of the class of the same
  name (`users_`, `orders_`, `next_user_id_`, `next_order_id_`); its
  `std::unordered_map<int, T>` members are modelled as association lists
  keyed by `Int`, with map assignment `mapSet` (overwrite if the key is
  present, insert otherwise) and lookup `mapFind`;
* `services.UserService` / `services.OrderService` — the member functions of
  `user_service.cpp` / `order_service.cpp`, written in state-passing style:
  the mutable store is an explicit argument and mutating operations return
  the new store alongside the C++ return value.
-/

namespace contracts

/-- Order status, from `order_contract.hpp` (`enum class OrderStatus`). -/
inductive OrderStatus where
  | PENDING
  | CONFIRMED
  | SHIPPED
  | DELIVERED
  | CANCELLED
deriving DecidableEq, Repr

/-- User record, from `user_contract.hpp` (`struct User`). -/
structure User where
  id : Int
  name : String
  email : String
  is_active : Bool
deriving DecidableEq, Repr

/-- Order record, from `order_contract.hpp` (`struct Order`).
The C++ `double amount` is modelled as `Rat`. -/
structure Order where
  id : Int
  user_id : Int
  product_name : String
  amount : Rat
  status : OrderStatus
deriving DecidableEq, Repr

end contracts

/-- Lookup in an association list modelling `std::unordered_map<int, T>`:
returns the value stored at key `k`, if any (`map.find`). -/
def mapFind {α : Type} (k : Int) : List (Int × α) → Option α
  | [] => none
  | (k2, v) :: rest => if k2 = k then some v else mapFind k rest

/-- Map assignment `m[k] = v` on the association-list model: overwrite the
value if key `k` is present, append a new entry otherwise. -/
def mapSet {α : Type} (k : Int) (v : α) : List (Int × α) → List (Int × α)
  | [] => [(k, v)]
  | (k2, v2) :: rest => if k2 = k then (k2, v) :: rest else (k2, v2) :: mapSet k v rest

/-- Key removal `m.erase(k)` on the association-list model; returns the list
without the entry at `k`. -/
def mapErase {α : Type} (k : Int) : List (Int × α) → List (Int × α)
  | [] => []
  | (k2, v2) :: rest => if k2 = k then rest else (k2, v2) :: mapErase k rest

namespace services

/-- State of `InMemoryDatabase` (`database.hpp`): the two hash maps and the
two id counters. The mutex only serializes access and has no sequential
meaning, so it is not modelled. -/
structure InMemoryDatabase where
  users : List (Int × contracts.User)
  orders : List (Int × contracts.Order)
  next_user_id : Int
  next_order_id : Int
deriving DecidableEq, Repr

namespace InMemoryDatabase

/-- A freshly constructed `InMemoryDatabase` (default member initializers:
empty maps, both counters `1`). -/
def init : InMemoryDatabase := ⟨[], [], 1, 1⟩

/-- `InMemoryDatabase::saveUser`: copy the record, overwrite its `id` with
`next_user_id_++`, store it under that id, return the id. -/
def saveUser (db : InMemoryDatabase) (user : contracts.User) :
    Int × InMemoryDatabase :=
  let new_user : contracts.User := { user with id := db.next_user_id }
  (new_user.id,
   { db with
       users := mapSet new_user.id new_user db.users
       next_user_id := db.next_user_id + 1 })

/-- `InMemoryDatabase::findUserById`: map lookup, `nullopt` when absent. -/
def findUserById (db : InMemoryDatabase) (id : Int) : Option contracts.User :=
  mapFind id db.users

/-- `InMemoryDatabase::findAllUsers`: all stored user records, in map
iteration order. -/
def findAllUsers (db : InMemoryDatabase) : List contracts.User :=
  db.users.map Prod.snd

/-- `InMemoryDatabase::updateUser`: if a record with key `user.id` exists,
overwrite it and return true; otherwise return false. -/
def updateUser (db : InMemoryDatabase) (user : contracts.User) :
    Bool × InMemoryDatabase :=
  if (mapFind user.id db.users).isSome then
    (true, { db with users := mapSet user.id user db.users })
  else
    (false, db)

/-- `InMemoryDatabase::deleteUser`: erase by key, report whether a record
was removed. -/
def deleteUser (db : InMemoryDatabase) (id : Int) : Bool × InMemoryDatabase :=
  ((mapFind id db.users).isSome, { db with users := mapErase id db.users })

/-- `InMemoryDatabase::saveOrder`: copy the record, overwrite its `id` with
`next_order_id_++`, store it under that id, return the id. -/
def saveOrder (db : InMemoryDatabase) (order : contracts.Order) :
    Int × InMemoryDatabase :=
  let new_order : contracts.Order := { order with id := db.next_order_id }
  (new_order.id,
   { db with
       orders := mapSet new_order.id new_order db.orders
       next_order_id := db.next_order_id + 1 })

/-- `InMemoryDatabase::findOrderById`: map lookup, `nullopt` when absent. -/
def findOrderById (db : InMemoryDatabase) (id : Int) : Option contracts.Order :=
  mapFind id db.orders

/-- `InMemoryDatabase::findOrdersByUserId`: the stored orders whose
`user_id` matches, in map iteration order. -/
def findOrdersByUserId (db : InMemoryDatabase) (user_id : Int) :
    List contracts.Order :=
  (db.orders.filter (fun p => p.snd.user_id == user_id)).map Prod.snd

/-- `InMemoryDatabase::findAllOrders`: all stored order records, in map
iteration order. -/
def findAllOrders (db : InMemoryDatabase) : List contracts.Order :=
  db.orders.map Prod.snd

/-- `InMemoryDatabase::updateOrder`: if a record with key `order.id` exists,
overwrite it and return true; otherwise return false. -/
def updateOrder (db : InMemoryDatabase) (order : contracts.Order) :
    Bool × InMemoryDatabase :=
  if (mapFind order.id db.orders).isSome then
    (true, { db with orders := mapSet order.id order db.orders })
  else
    (false, db)

/-- `InMemoryDatabase::deleteOrder`: erase by key, report whether a record
was removed. -/
def deleteOrder (db : InMemoryDatabase) (id : Int) : Bool × InMemoryDatabase :=
  ((mapFind id db.orders).isSome, { db with orders := mapErase id db.orders })

/-- `InMemoryDatabase::clear`: empty both maps, reset both counters to 1. -/
def clear (_db : InMemoryDatabase) : InMemoryDatabase :=
  ⟨[], [], 1, 1⟩

end InMemoryDatabase

namespace UserService

/-- `UserService::isValidName`: the name must be non-empty. -/
def isValidName (name : String) : Bool :=
  !name.isEmpty

/-- `UserService::isValidEmail` as written in `user_service.cpp`: any
non-empty email is accepted (the source comment itself flags that the `@`
check was removed and the contract is violated). -/
def isValidEmail (email : String) : Bool :=
  !email.isEmpty

/-- `UserService::createUser`: validate name and email, else `-1`; on
success build a record with `is_active = true` and delegate to
`saveUser`. -/
def createUser (db : InMemoryDatabase) (name email : String) :
    Int × InMemoryDatabase :=
  if !isValidName name || !isValidEmail email then
    (-1, db)
  else
    InMemoryDatabase.saveUser db ⟨0, name, email, true⟩

/-- `UserService::getUser`: passthrough to `findUserById`. -/
def getUser (db : InMemoryDatabase) (id : Int) : Option contracts.User :=
  InMemoryDatabase.findUserById db id

/-- `UserService::getActiveUsers`: filter all users by `is_active`. -/
def getActiveUsers (db : InMemoryDatabase) : List contracts.User :=
  (InMemoryDatabase.findAllUsers db).filter (fun u => u.is_active)

/-- `UserService::deactivateUser`: false when the id is unknown; otherwise
set `is_active = false` and persist via `updateUser`. -/
def deactivateUser (db : InMemoryDatabase) (id : Int) :
    Bool × InMemoryDatabase :=
  match InMemoryDatabase.findUserById db id with
  | none => (false, db)
  | some user => InMemoryDatabase.updateUser db { user with is_active := false }

/-- `UserService::userExists`: `findUserById(id).has_value()`. -/
def userExists (db : InMemoryDatabase) (id : Int) : Bool :=
  (InMemoryDatabase.findUserById db id).isSome

end UserService

namespace OrderService

/-- `OrderService::isValidProductName`: the product name must be
non-empty. -/
def isValidProductName (name : String) : Bool :=
  !name.isEmpty

/-- `OrderService::isValidAmount`: the amount must be strictly positive. -/
def isValidAmount (amount : Rat) : Bool :=
  decide (amount > 0)

/-- `OrderService::canCancel`: only `PENDING` and `CONFIRMED` orders may be
cancelled. -/
def canCancel (status : contracts.OrderStatus) : Bool :=
  decide (status = contracts.OrderStatus.PENDING) ||
    decide (status = contracts.OrderStatus.CONFIRMED)

/-- `OrderService::createOrder`: the user must exist, be active, and the
product name and amount must be valid, each failure returning `-1`; on
success build a `PENDING` order and delegate to `saveOrder`. -/
def createOrder (db : InMemoryDatabase) (user_id : Int)
    (product_name : String) (amount : Rat) : Int × InMemoryDatabase :=
  match UserService.getUser db user_id with
  | none => (-1, db)
  | some user =>
    if !user.is_active then
      (-1, db)
    else if !isValidProductName product_name || !isValidAmount amount then
      (-1, db)
    else
      InMemoryDatabase.saveOrder db
        ⟨0, user_id, product_name, amount, contracts.OrderStatus.PENDING⟩

/-- `OrderService::getOrder`: passthrough to `findOrderById`. -/
def getOrder (db : InMemoryDatabase) (id : Int) : Option contracts.Order :=
  InMemoryDatabase.findOrderById db id

/-- `OrderService::getUserOrders`: passthrough to `findOrdersByUserId`. -/
def getUserOrders (db : InMemoryDatabase) (user_id : Int) :
    List contracts.Order :=
  InMemoryDatabase.findOrdersByUserId db user_id

/-- `OrderService::updateOrderStatus`: false when the id is unknown;
otherwise overwrite the status unconditionally and persist via
`updateOrder`. -/
def updateOrderStatus (db : InMemoryDatabase) (id : Int)
    (status : contracts.OrderStatus) : Bool × InMemoryDatabase :=
  match InMemoryDatabase.findOrderById db id with
  | none => (false, db)
  | some order => InMemoryDatabase.updateOrder db { order with status := status }

/-- `OrderService::cancelOrder`: false when the id is unknown or the status
is not cancellable (`canCancel`); otherwise set the status to `CANCELLED`
and persist via `updateOrder`. -/
def cancelOrder (db : InMemoryDatabase) (id : Int) : Bool × InMemoryDatabase :=
  match InMemoryDatabase.findOrderById db id with
  | none => (false, db)
  | some order =>
    if !canCancel order.status then
      (false, db)
    else
      InMemoryDatabase.updateOrder db
        { order with status := contracts.OrderStatus.CANCELLED }

/-- `OrderService::getTotalAmount`: `std::accumulate` over the orders of
the user, skipping `CANCELLED` ones. -/
def getTotalAmount (db : InMemoryDatabase) (user_id : Int) : Rat :=
  (InMemoryDatabase.findOrdersByUserId db user_id).foldl
    (fun sum order =>
      if order.status ≠ contracts.OrderStatus.CANCELLED then
        sum + order.amount
      else
        sum)
    0

end OrderService

/-- Key well-formedness of the store: every record is filed under its own
`id`. `saveUser`/`saveOrder` establish this (the key is the freshly
assigned `id`) and `updateUser`/`updateOrder` preserve it (the key used is
the record's `id`), so it holds in every reachable state. -/
def InMemoryDatabase.WF (db : InMemoryDatabase) : Prop :=
  (∀ p ∈ db.users, (Prod.snd p).id = p.fst) ∧
    (∀ p ∈ db.orders, (Prod.snd p).id = p.fst)

/-- Id-counter invariant: every stored key is strictly below the
corresponding next-id counter, and the counters are at least the initial
value 1. -/
def InMemoryDatabase.IdInv (db : InMemoryDatabase) : Prop :=
  (∀ p ∈ db.users, p.fst < db.next_user_id) ∧
    (∀ p ∈ db.orders, p.fst < db.next_order_id) ∧
    1 ≤ db.next_user_id ∧ 1 ≤ db.next_order_id

/-- The store states reachable from a freshly initialized
`InMemoryDatabase` by the database operations (the service operations only
compose these). -/
inductive InMemoryDatabase.Reachable : InMemoryDatabase → Prop where
  | init : InMemoryDatabase.Reachable InMemoryDatabase.init
  | saveUser (db : InMemoryDatabase) (u : contracts.User) :
      InMemoryDatabase.Reachable db →
      InMemoryDatabase.Reachable (InMemoryDatabase.saveUser db u).snd
  | updateUser (db : InMemoryDatabase) (u : contracts.User) :
      InMemoryDatabase.Reachable db →
      InMemoryDatabase.Reachable (InMemoryDatabase.updateUser db u).snd
  | deleteUser (db : InMemoryDatabase) (id : Int) :
      InMemoryDatabase.Reachable db →
      InMemoryDatabase.Reachable (InMemoryDatabase.deleteUser db id).snd
  | saveOrder (db : InMemoryDatabase) (o : contracts.Order) :
      InMemoryDatabase.Reachable db →
      InMemoryDatabase.Reachable (InMemoryDatabase.saveOrder db o).snd
  | updateOrder (db : InMemoryDatabase) (o : contracts.Order) :
      InMemoryDatabase.Reachable db →
      InMemoryDatabase.Reachable (InMemoryDatabase.updateOrder db o).snd
  | deleteOrder (db : InMemoryDatabase) (id : Int) :
      InMemoryDatabase.Reachable db →
      InMemoryDatabase.Reachable (InMemoryDatabase.deleteOrder db id).snd
  | clear (db : InMemoryDatabase) :
      InMemoryDatabase.Reachable db →
      InMemoryDatabase.Reachable (InMemoryDatabase.clear db)

/-- A sample active user, stored under id 1. -/
def sampleUser : contracts.User := ⟨1, "Alice", "alice@example.com", true⟩

/-- A sample `PENDING` order of `sampleUser`, stored under id 1. -/
def samplePendingOrder : contracts.Order :=
  ⟨1, 1, "Widget", 100, contracts.OrderStatus.PENDING⟩

/-- A sample `CANCELLED` order of `sampleUser`, stored under id 1. -/
def sampleCancelledOrder : contracts.Order :=
  ⟨1, 1, "Widget", 100, contracts.OrderStatus.CANCELLED⟩

/-- A sample `SHIPPED` order of `sampleUser`, stored under id 1. -/
def sampleShippedOrder : contracts.Order :=
  ⟨1, 1, "Widget", 100, contracts.OrderStatus.SHIPPED⟩

/-- A concrete store: one active user (id 1) and one `PENDING` order
(id 1), counters at 2. -/
def sampleDb : InMemoryDatabase :=
  ⟨[(1, sampleUser)], [(1, samplePendingOrder)], 2, 2⟩

/-- A concrete store whose only order (id 1) is already `CANCELLED`. -/
def dbCancelled : InMemoryDatabase :=
  ⟨[(1, sampleUser)], [(1, sampleCancelledOrder)], 2, 2⟩

/-- A concrete store whose only order (id 1) is `SHIPPED`. -/
def dbShipped : InMemoryDatabase :=
  ⟨[(1, sampleUser)], [(1, sampleShippedOrder)], 2, 2⟩

end services

/-! ## Helper lemmas about the association-list map model -/

/-- Looking up the key just assigned returns the assigned value. -/
theorem mapFind_set_self {α : Type} (k : Int) (v : α) (l : List (Int × α)) :
    mapFind k (mapSet k v l) = some v := by
  induction l with
  | nil => simp [mapSet, mapFind]
  | cons p rest ih =>
    obtain ⟨k2, v2⟩ := p
    by_cases h : k2 = k
    · simp [mapSet, h, mapFind]
    · simp [mapSet, h, mapFind, ih]

/-- A successful lookup exhibits a stored entry. -/
theorem mapFind_mem {α : Type} {k : Int} {v : α} {l : List (Int × α)}
    (h : mapFind k l = some v) : (k, v) ∈ l := by
  induction l with
  | nil => simp [mapFind] at h
  | cons p rest ih =>
    obtain ⟨k2, v2⟩ := p
    by_cases h2 : k2 = k
    · simp [mapFind, h2] at h
      subst h2
      subst h
      exact List.mem_cons_self _ _
    · simp [mapFind, h2] at h
      exact List.mem_cons_of_mem _ (ih h)

/-- Re-assigning the value already stored at a key leaves the list
unchanged. -/
theorem mapSet_self_eq {α : Type} {k : Int} {v : α} {l : List (Int × α)}
    (h : mapFind k l = some v) : mapSet k v l = l := by
  induction l with
  | nil => simp [mapFind] at h
  | cons p rest ih =>
    obtain ⟨k2, v2⟩ := p
    by_cases h2 : k2 = k
    · simp [mapFind, h2] at h
      simp [mapSet, h2, h]
    · simp [mapFind, h2] at h
      simp [mapSet, h2, ih h]

/-- A key held by no entry looks up to `none`. -/
theorem mapFind_eq_none {α : Type} {k : Int} {l : List (Int × α)}
    (h : ∀ p ∈ l, p.fst ≠ k) : mapFind k l = none := by
  induction l with
  | nil => rfl
  | cons p rest ih =>
    obtain ⟨k2, v2⟩ := p
    have hk : k2 ≠ k := h (k2, v2) (List.mem_cons_self _ _)
    simp [mapFind, hk]
    exact ih (fun q hq => h q (List.mem_cons_of_mem _ hq))

/-- The accumulator form of `getTotalAmount`: folding the skip-cancelled
step over a list of orders adds the sum of the non-cancelled amounts. -/
theorem foldl_amount_eq (l : List contracts.Order) (a : Rat) :
    l.foldl
        (fun sum order =>
          if order.status ≠ contracts.OrderStatus.CANCELLED then
            sum + order.amount
          else
            sum)
        a
      = a + ((l.filter
            (fun o => !(o.status == contracts.OrderStatus.CANCELLED))).map
          contracts.Order.amount).sum := by
  induction l generalizing a with
  | nil => simp
  | cons o rest ih =>
    rw [List.foldl_cons]
    by_cases h : o.status = contracts.OrderStatus.CANCELLED
    · rw [if_neg (not_not_intro h), ih]
      simp [h]
    · rw [if_pos h, ih]
      simp [h, add_assoc]

/-- Filtering the user's orders and then dropping the cancelled ones is the
same as one filter over all stored orders. -/
theorem orders_filter_eq (l : List (Int × contracts.Order)) (uid : Int) :
    ((l.filter (fun p => p.snd.user_id == uid)).map Prod.snd).filter
        (fun o => !(o.status == contracts.OrderStatus.CANCELLED))
      = (l.map Prod.snd).filter
          (fun o =>
            o.user_id == uid && !(o.status == contracts.OrderStatus.CANCELLED)) := by
  induction l with
  | nil => rfl
  | cons p rest ih =>
    obtain ⟨k, o⟩ := p
    by_cases hu : o.user_id = uid
    · by_cases hs : o.status = contracts.OrderStatus.CANCELLED
      · simp [hu, hs, ih]
      · simp [hu, hs, ih]
    · simp [hu, ih]

/-! ## Claim theorems -/

namespace services

/-- C7: for every store state and account id, `userExists` returns true
exactly when `getUser` returns a present value (both are the same lookup,
with no separate existence index). -/
theorem userExists_iff_getUser (db : InMemoryDatabase) (id : Int) :
    UserService.userExists db id = true ↔
      ∃ u, UserService.getUser db id = some u := by
  simp [UserService.userExists, UserService.getUser,
    Option.isSome_iff_exists]

/-- C10: whenever `cancelOrder` returns false the store is left completely
unchanged, and on a key-well-formed store it returns false exactly when the
order is unknown or its status is `SHIPPED`, `DELIVERED` or `CANCELLED`. -/
theorem cancelOrder_false_no_side_effect (db : InMemoryDatabase) (id : Int)
    (hwf : ∀ p ∈ db.orders, (Prod.snd p).id = p.fst) :
    ((OrderService.cancelOrder db id).fst = false →
        (OrderService.cancelOrder db id).snd = db) ∧
      ((OrderService.cancelOrder db id).fst = false ↔
        OrderService.getOrder db id = none ∨
          ∃ o, OrderService.getOrder db id = some o ∧
            (o.status = contracts.OrderStatus.SHIPPED ∨
              o.status = contracts.OrderStatus.DELIVERED ∨
              o.status = contracts.OrderStatus.CANCELLED)) := by
  cases h : InMemoryDatabase.findOrderById db id with
  | none =>
    constructor
    · intro _
      simp [OrderService.cancelOrder, h]
    · simp [OrderService.cancelOrder, OrderService.getOrder, h]
  | some o =>
    have hid : o.id = id := hwf _ (mapFind_mem h)
    have h3 : mapFind id db.orders = some o := h
    cases hst : o.status with
    | PENDING =>
      simp [OrderService.cancelOrder, OrderService.getOrder, h, h3, hst,
        OrderService.canCancel, InMemoryDatabase.updateOrder, hid]
    | CONFIRMED =>
      simp [OrderService.cancelOrder, OrderService.getOrder, h, h3, hst,
        OrderService.canCancel, InMemoryDatabase.updateOrder, hid]
    | SHIPPED =>
      simp [OrderService.cancelOrder, OrderService.getOrder, h, h3, hst,
        OrderService.canCancel]
    | DELIVERED =>
      simp [OrderService.cancelOrder, OrderService.getOrder, h, h3, hst,
        OrderService.canCancel]
    | CANCELLED =>
      simp [OrderService.cancelOrder, OrderService.getOrder, h, h3, hst,
        OrderService.canCancel]

/-- C10 witness: on the empty initial store, cancelling the unknown order 1
returns false and leaves the store unchanged. -/
theorem cancelOrder_false_no_side_effect_witness :
    (OrderService.cancelOrder InMemoryDatabase.init 1).fst = false ∧
      (OrderService.cancelOrder InMemoryDatabase.init 1).snd =
        InMemoryDatabase.init := by
  have h := cancelOrder_false_no_side_effect InMemoryDatabase.init 1
    (by intro p hp; simp [InMemoryDatabase.init] at hp)
  exact ⟨h.2.mpr (Or.inl rfl), h.1 (h.2.mpr (Or.inl rfl))⟩

/-- C1 counterexample: in `dbCancelled` order 1 is already `CANCELLED`, yet
`cancelOrder` returns false, not true as the claim states. -/
theorem cancel_cancelled_counterexample :
    OrderService.getOrder dbCancelled 1 = some sampleCancelledOrder ∧
      sampleCancelledOrder.status = contracts.OrderStatus.CANCELLED ∧
      (OrderService.cancelOrder dbCancelled 1).fst = false := by
  refine ⟨by decide, by decide, by decide⟩

/-- C1 (amended): cancelling an already-`CANCELLED` order returns false and
the order keeps its `CANCELLED` status (the store is untouched). -/
theorem cancel_cancelled_returns_false (db : InMemoryDatabase) (id : Int)
    (o : contracts.Order) (h : OrderService.getOrder db id = some o)
    (hst : o.status = contracts.OrderStatus.CANCELLED) :
    (OrderService.cancelOrder db id).fst = false ∧
      OrderService.getOrder (OrderService.cancelOrder db id).snd id =
        some o := by
  have h2 : InMemoryDatabase.findOrderById db id = some o := h
  simp [OrderService.cancelOrder, OrderService.getOrder, h2,
    OrderService.canCancel, hst]

/-- C1 witness: the amended statement evaluated on `dbCancelled`. -/
theorem cancel_cancelled_returns_false_witness :
    (OrderService.cancelOrder dbCancelled 1).fst = false ∧
      OrderService.getOrder (OrderService.cancelOrder dbCancelled 1).snd 1 =
        some sampleCancelledOrder :=
  cancel_cancelled_returns_false dbCancelled 1 sampleCancelledOrder
    (by decide) (by decide)

/-- C2: the contact string of the failing input has no `@` separator, yet
`createUser` on a fresh store accepts it and returns the id 1 instead of
the failure sentinel -1 (the code drops the documented `@` check). -/
theorem createUser_accepts_contact_without_separator :
    ("invalid-email".data.contains '@') = false ∧
      (UserService.createUser InMemoryDatabase.init
          "John Doe" "invalid-email").fst = 1 ∧
      (UserService.createUser InMemoryDatabase.init
          "John Doe" "invalid-email").fst ≠ -1 := by
  refine ⟨by decide, rfl, by decide⟩

end services

namespace services

/-- C4: `cancelOrder` returns false for an unknown id; returns false and
changes nothing when the status is `SHIPPED` or `DELIVERED`; and from
`PENDING` or `CONFIRMED` it sets the status to `CANCELLED`, persists it and
returns true. -/
theorem cancelOrder_spec (db : InMemoryDatabase) (id : Int)
    (hwf : ∀ p ∈ db.orders, (Prod.snd p).id = p.fst) :
    (OrderService.getOrder db id = none →
        OrderService.cancelOrder db id = (false, db)) ∧
      (∀ o, OrderService.getOrder db id = some o →
        (o.status = contracts.OrderStatus.SHIPPED ∨
            o.status = contracts.OrderStatus.DELIVERED) →
        OrderService.cancelOrder db id = (false, db)) ∧
      ∀ o, OrderService.getOrder db id = some o →
        (o.status = contracts.OrderStatus.PENDING ∨
            o.status = contracts.OrderStatus.CONFIRMED) →
        (OrderService.cancelOrder db id).fst = true ∧
          OrderService.getOrder (OrderService.cancelOrder db id).snd id =
            some { o with status := contracts.OrderStatus.CANCELLED } := by
  refine ⟨?_, ?_, ?_⟩
  · intro h
    have h3 : mapFind id db.orders = none := h
    simp [OrderService.cancelOrder, InMemoryDatabase.findOrderById, h3]
  · intro o h hst
    have h3 : mapFind id db.orders = some o := h
    rcases hst with hst | hst <;>
      simp [OrderService.cancelOrder, InMemoryDatabase.findOrderById, h3,
        OrderService.canCancel, hst]
  · intro o h hst
    have h3 : mapFind id db.orders = some o := h
    have hid : o.id = id := hwf _ (mapFind_mem h3)
    rcases hst with hst | hst <;>
      simp [OrderService.cancelOrder, OrderService.getOrder,
        InMemoryDatabase.findOrderById, h3, OrderService.canCancel, hst,
        InMemoryDatabase.updateOrder, hid, mapFind_set_self]

/-- C4 witness: cancelling the `PENDING` order 1 of `sampleDb` succeeds and
stores it as `CANCELLED`. -/
theorem cancelOrder_spec_witness :
    (OrderService.cancelOrder sampleDb 1).fst = true ∧
      OrderService.getOrder (OrderService.cancelOrder sampleDb 1).snd 1 =
        some { samplePendingOrder with
                 status := contracts.OrderStatus.CANCELLED } := by
  have h := cancelOrder_spec sampleDb 1 (by decide)
  exact h.2.2 samplePendingOrder (by decide) (Or.inl (by decide))

/-- C6: `deactivateUser` returns false for an unknown id; otherwise it
stores the account with `is_active = false` and returns true, and a second
call again returns true and leaves the store unchanged. -/
theorem deactivateUser_spec (db : InMemoryDatabase) (id : Int)
    (hwf : ∀ p ∈ db.users, (Prod.snd p).id = p.fst) :
    (UserService.getUser db id = none →
        UserService.deactivateUser db id = (false, db)) ∧
      ∀ u, UserService.getUser db id = some u →
        (UserService.deactivateUser db id).fst = true ∧
          UserService.getUser (UserService.deactivateUser db id).snd id =
            some { u with is_active := false } ∧
          UserService.deactivateUser (UserService.deactivateUser db id).snd
              id =
            (true, (UserService.deactivateUser db id).snd) := by
  refine ⟨?_, ?_⟩
  · intro h
    have h3 : mapFind id db.users = none := h
    simp [UserService.deactivateUser, InMemoryDatabase.findUserById, h3]
  · intro u h
    have h3 : mapFind id db.users = some u := h
    have hid : u.id = id := hwf _ (mapFind_mem h3)
    subst hid
    have hstep : UserService.deactivateUser db u.id =
        (true,
          { db with
              users := mapSet u.id { u with is_active := false } db.users }) := by
      simp [UserService.deactivateUser, InMemoryDatabase.findUserById, h3,
        InMemoryDatabase.updateUser]
    have h4 : mapFind u.id
          (mapSet u.id { u with is_active := false } db.users) =
        some { u with is_active := false } := mapFind_set_self _ _ _
    refine ⟨by rw [hstep], ?_, ?_⟩
    · rw [hstep]
      simp [UserService.getUser, InMemoryDatabase.findUserById,
        mapFind_set_self]
    · rw [hstep]
      simp [UserService.deactivateUser, InMemoryDatabase.findUserById, h4,
        InMemoryDatabase.updateUser, mapSet_self_eq h4]

/-- C6 witness: deactivating user 1 of `sampleDb` succeeds, stores the
inactive record, and repeating the call returns true without changes. -/
theorem deactivateUser_spec_witness :
    (UserService.deactivateUser sampleDb 1).fst = true ∧
      UserService.getUser (UserService.deactivateUser sampleDb 1).snd 1 =
        some { sampleUser with is_active := false } ∧
      UserService.deactivateUser (UserService.deactivateUser sampleDb 1).snd
          1 =
        (true, (UserService.deactivateUser sampleDb 1).snd) := by
  have h := deactivateUser_spec sampleDb 1 (by decide)
  exact h.2 sampleUser (by decide)

/-- C8: `updateOrderStatus` returns false for an unknown id; otherwise it
overwrites the status with the given one — whatever the current status —
persists it and returns true. -/
theorem updateOrderStatus_spec (db : InMemoryDatabase) (id : Int)
    (status : contracts.OrderStatus)
    (hwf : ∀ p ∈ db.orders, (Prod.snd p).id = p.fst) :
    (OrderService.getOrder db id = none →
        OrderService.updateOrderStatus db id status = (false, db)) ∧
      ∀ o, OrderService.getOrder db id = some o →
        (OrderService.updateOrderStatus db id status).fst = true ∧
          OrderService.getOrder
              (OrderService.updateOrderStatus db id status).snd id =
            some { o with status := status } := by
  refine ⟨?_, ?_⟩
  · intro h
    have h3 : mapFind id db.orders = none := h
    simp [OrderService.updateOrderStatus, InMemoryDatabase.findOrderById, h3]
  · intro o h
    have h3 : mapFind id db.orders = some o := h
    have hid : o.id = id := hwf _ (mapFind_mem h3)
    simp [OrderService.updateOrderStatus, OrderService.getOrder,
      InMemoryDatabase.findOrderById, h3, InMemoryDatabase.updateOrder, hid,
      mapFind_set_self]

/-- C8 witness: forcing the `PENDING` order 1 of `sampleDb` straight to
`DELIVERED` succeeds and is persisted. -/
theorem updateOrderStatus_spec_witness :
    (OrderService.updateOrderStatus sampleDb 1
        contracts.OrderStatus.DELIVERED).fst = true ∧
      OrderService.getOrder
          (OrderService.updateOrderStatus sampleDb 1
              contracts.OrderStatus.DELIVERED).snd 1 =
        some { samplePendingOrder with
                 status := contracts.OrderStatus.DELIVERED } := by
  have h := updateOrderStatus_spec sampleDb 1
    contracts.OrderStatus.DELIVERED (by decide)
  exact h.2 samplePendingOrder (by decide)

end services

namespace services

/-- C5: `getTotalAmount` equals the sum of `amount` over exactly the stored
orders whose `user_id` matches and whose status is not `CANCELLED`; it is 0
when the user has no orders at all (in particular for ids that never named
an account), and it is total. -/
theorem getTotalAmount_spec (db : InMemoryDatabase) (uid : Int) :
    OrderService.getTotalAmount db uid =
        (((db.orders.map Prod.snd).filter
              (fun o =>
                o.user_id == uid &&
                  !(o.status == contracts.OrderStatus.CANCELLED))).map
            contracts.Order.amount).sum ∧
      ((∀ p ∈ db.orders, ¬p.snd.user_id = uid) →
        OrderService.getTotalAmount db uid = 0) := by
  have hmain : OrderService.getTotalAmount db uid =
      (((db.orders.map Prod.snd).filter
            (fun o =>
              o.user_id == uid &&
                !(o.status == contracts.OrderStatus.CANCELLED))).map
          contracts.Order.amount).sum := by
    unfold OrderService.getTotalAmount InMemoryDatabase.findOrdersByUserId
    rw [foldl_amount_eq, orders_filter_eq, zero_add]
  refine ⟨hmain, ?_⟩
  intro h
  rw [hmain]
  have hnil : (db.orders.map Prod.snd).filter
      (fun o =>
        o.user_id == uid &&
          !(o.status == contracts.OrderStatus.CANCELLED)) = [] := by
    apply List.filter_eq_nil_iff.mpr
    intro o ho
    obtain ⟨p, hp, rfl⟩ := List.mem_map.mp ho
    simp [h p hp]
  rw [hnil]
  simp

/-- C5 witness: `dbCancelled` holds one order of user 1, already cancelled,
so the total for user 1 is 0; and user 2 has no orders at all, so the total
for user 2 is also 0. -/
theorem getTotalAmount_spec_witness :
    OrderService.getTotalAmount dbCancelled 1 =
        (((dbCancelled.orders.map Prod.snd).filter
              (fun o =>
                o.user_id == 1 &&
                  !(o.status == contracts.OrderStatus.CANCELLED))).map
            contracts.Order.amount).sum ∧
      OrderService.getTotalAmount dbCancelled 2 = 0 := by
  refine ⟨(getTotalAmount_spec dbCancelled 1).1, ?_⟩
  exact (getTotalAmount_spec dbCancelled 2).2 (by decide)

/-- C3: `createOrder` returns -1 when the user is unknown, when the user is
inactive, when the product name is empty, or when the amount is not
strictly positive; when all preconditions hold it stores a `PENDING` order
under a fresh positive id and returns that id. -/
theorem createOrder_spec (db : InMemoryDatabase) (uid : Int)
    (pname : String) (amount : Rat) (hctr : 1 ≤ db.next_order_id) :
    (UserService.getUser db uid = none →
        OrderService.createOrder db uid pname amount = (-1, db)) ∧
      (∀ u, UserService.getUser db uid = some u → u.is_active = false →
        OrderService.createOrder db uid pname amount = (-1, db)) ∧
      (∀ u, UserService.getUser db uid = some u → pname = "" →
        OrderService.createOrder db uid pname amount = (-1, db)) ∧
      (∀ u, UserService.getUser db uid = some u → amount ≤ 0 →
        OrderService.createOrder db uid pname amount = (-1, db)) ∧
      ∀ u, UserService.getUser db uid = some u → u.is_active = true →
        pname ≠ "" → 0 < amount →
        0 < (OrderService.createOrder db uid pname amount).fst ∧
          OrderService.getOrder
              (OrderService.createOrder db uid pname amount).snd
              (OrderService.createOrder db uid pname amount).fst =
            some ⟨(OrderService.createOrder db uid pname amount).fst, uid,
                  pname, amount, contracts.OrderStatus.PENDING⟩ := by
  refine ⟨?_, ?_, ?_, ?_, ?_⟩
  · intro h
    have h3 : mapFind uid db.users = none := h
    simp [OrderService.createOrder, UserService.getUser,
      InMemoryDatabase.findUserById, h3]
  · intro u h hact
    have h3 : mapFind uid db.users = some u := h
    simp [OrderService.createOrder, UserService.getUser,
      InMemoryDatabase.findUserById, h3, hact]
  · intro u h hp
    subst hp
    have h3 : mapFind uid db.users = some u := h
    have hemp : ("" : String).isEmpty = true := rfl
    cases hact : u.is_active <;>
      simp [OrderService.createOrder, UserService.getUser,
        InMemoryDatabase.findUserById, h3, hact,
        OrderService.isValidProductName, hemp]
  · intro u h hamt
    have h3 : mapFind uid db.users = some u := h
    have hdec : decide (amount > 0) = false :=
      decide_eq_false (not_lt.mpr hamt)
    cases hact : u.is_active <;>
      simp [OrderService.createOrder, UserService.getUser,
        InMemoryDatabase.findUserById, h3, hact,
        OrderService.isValidAmount, hdec]
  · intro u h hact hp hamt
    have h3 : mapFind uid db.users = some u := h
    have hpe : pname.isEmpty = false :=
      Bool.eq_false_iff.mpr (fun hcon => hp ((String.isEmpty_iff pname).mp hcon))
    have hdec : decide (amount > 0) = true := decide_eq_true hamt
    have hred : OrderService.createOrder db uid pname amount =
        InMemoryDatabase.saveOrder db
          ⟨0, uid, pname, amount, contracts.OrderStatus.PENDING⟩ := by
      simp [OrderService.createOrder, UserService.getUser,
        InMemoryDatabase.findUserById, h3, hact,
        OrderService.isValidProductName, OrderService.isValidAmount,
        hpe, hdec]
    rw [hred]
    constructor
    · show (0 : Int) < db.next_order_id
      omega
    · show OrderService.getOrder _ db.next_order_id = _
      simp [OrderService.getOrder, InMemoryDatabase.findOrderById,
        InMemoryDatabase.saveOrder, mapFind_set_self]

/-- C3 witness: on `sampleDb` (user 1 active), ordering a non-empty product
with positive amount succeeds with a positive id, and each violated
precondition yields -1. -/
theorem createOrder_spec_witness :
    OrderService.createOrder sampleDb 2 "Phone" 5 = (-1, sampleDb) ∧
      OrderService.createOrder sampleDb 1 "" 5 = (-1, sampleDb) ∧
      OrderService.createOrder sampleDb 1 "Phone" 0 = (-1, sampleDb) ∧
      0 < (OrderService.createOrder sampleDb 1 "Phone" 5).fst := by
  have h := createOrder_spec sampleDb 1 "Phone" 5 (by decide)
  have hempty := createOrder_spec sampleDb 1 "" 5 (by decide)
  have hzero := createOrder_spec sampleDb 1 "Phone" 0 (by decide)
  have hmissing := createOrder_spec sampleDb 2 "Phone" 5 (by decide)
  refine ⟨hmissing.1 (by decide), ?_, ?_, ?_⟩
  · exact hempty.2.2.1 sampleUser (by decide) rfl
  · exact hzero.2.2.2.1 sampleUser (by decide) (by norm_num)
  · exact (h.2.2.2.2 sampleUser (by decide) (by decide) (by decide)
      (by norm_num)).1

end services

/-- Membership after map assignment: an entry either carries the assigned
key or was already present. -/
theorem mem_mapSet {α : Type} {p : Int × α} {k : Int} {v : α}
    {l : List (Int × α)} (h : p ∈ mapSet k v l) : p.fst = k ∨ p ∈ l := by
  induction l with
  | nil =>
    simp [mapSet] at h
    exact Or.inl (by rw [h])
  | cons q rest ih =>
    obtain ⟨k2, v2⟩ := q
    by_cases h2 : k2 = k
    · simp only [mapSet, if_pos h2] at h
      rcases List.mem_cons.mp h with h | h
      · exact Or.inl (by rw [h, h2])
      · exact Or.inr (List.mem_cons_of_mem _ h)
    · simp only [mapSet, if_neg h2] at h
      rcases List.mem_cons.mp h with h | h
      · exact Or.inr (by rw [h]; exact List.mem_cons_self _ _)
      · rcases ih h with h | h
        · exact Or.inl h
        · exact Or.inr (List.mem_cons_of_mem _ h)

/-- Membership after key removal: every remaining entry was present
before. -/
theorem mem_mapErase {α : Type} {p : Int × α} {k : Int}
    {l : List (Int × α)} (h : p ∈ mapErase k l) : p ∈ l := by
  induction l with
  | nil => simp [mapErase] at h
  | cons q rest ih =>
    obtain ⟨k2, v2⟩ := q
    by_cases h2 : k2 = k
    · simp only [mapErase, if_pos h2] at h
      exact List.mem_cons_of_mem _ h
    · simp only [mapErase, if_neg h2] at h
      rcases List.mem_cons.mp h with h | h
      · exact h ▸ List.mem_cons_self _ _
      · exact List.mem_cons_of_mem _ (ih h)

namespace services

/-- Every reachable store state satisfies the id-counter invariant: stored
keys are strictly below the next-id counters, which never drop below 1. -/
theorem reachable_idInv {db : InMemoryDatabase}
    (h : InMemoryDatabase.Reachable db) : InMemoryDatabase.IdInv db := by
  induction h with
  | init =>
    refine ⟨?_, ?_, ?_, ?_⟩ <;>
      simp [InMemoryDatabase.init, InMemoryDatabase.IdInv]
  | saveUser db u hr ih =>
    obtain ⟨h1, h2, h3, h4⟩ := ih
    refine ⟨?_, ?_, ?_, ?_⟩ <;>
      simp only [InMemoryDatabase.saveUser]
    · intro p hp
      rcases mem_mapSet hp with hk | hk
      · omega
      · have := h1 p hk
        omega
    · exact h2
    · omega
    · exact h4
  | updateUser db u hr ih =>
    obtain ⟨h1, h2, h3, h4⟩ := ih
    by_cases hx : (mapFind u.id db.users).isSome = true
    · obtain ⟨w, hw⟩ := Option.isSome_iff_exists.mp hx
      have hkey : u.id < db.next_user_id := h1 _ (mapFind_mem hw)
      refine ⟨?_, ?_, ?_, ?_⟩ <;>
        simp only [InMemoryDatabase.updateUser, if_pos hx]
      · intro p hp
        rcases mem_mapSet hp with hk | hk
        · omega
        · exact h1 p hk
      · exact h2
      · exact h3
      · exact h4
    · refine ⟨?_, ?_, ?_, ?_⟩ <;>
        simp only [InMemoryDatabase.updateUser, if_neg hx]
      · exact h1
      · exact h2
      · exact h3
      · exact h4
  | deleteUser db id hr ih =>
    obtain ⟨h1, h2, h3, h4⟩ := ih
    refine ⟨?_, ?_, ?_, ?_⟩ <;>
      simp only [InMemoryDatabase.deleteUser]
    · exact fun p hp => h1 p (mem_mapErase hp)
    · exact h2
    · exact h3
    · exact h4
  | saveOrder db o hr ih =>
    obtain ⟨h1, h2, h3, h4⟩ := ih
    refine ⟨?_, ?_, ?_, ?_⟩ <;>
      simp only [InMemoryDatabase.saveOrder]
    · exact h1
    · intro p hp
      rcases mem_mapSet hp with hk | hk
      · omega
      · have := h2 p hk
        omega
    · exact h3
    · omega
  | updateOrder db o hr ih =>
    obtain ⟨h1, h2, h3, h4⟩ := ih
    by_cases hx : (mapFind o.id db.orders).isSome = true
    · obtain ⟨w, hw⟩ := Option.isSome_iff_exists.mp hx
      have hkey : o.id < db.next_order_id := h2 _ (mapFind_mem hw)
      refine ⟨?_, ?_, ?_, ?_⟩ <;>
        simp only [InMemoryDatabase.updateOrder, if_pos hx]
      · exact h1
      · intro p hp
        rcases mem_mapSet hp with hk | hk
        · omega
        · exact h2 p hk
      · exact h3
      · exact h4
    · refine ⟨?_, ?_, ?_, ?_⟩ <;>
        simp only [InMemoryDatabase.updateOrder, if_neg hx]
      · exact h1
      · exact h2
      · exact h3
      · exact h4
  | deleteOrder db id hr ih =>
    obtain ⟨h1, h2, h3, h4⟩ := ih
    refine ⟨?_, ?_, ?_, ?_⟩ <;>
      simp only [InMemoryDatabase.deleteOrder]
    · exact h1
    · exact fun p hp => h2 p (mem_mapErase hp)
    · exact h3
    · exact h4
  | clear db hr ih =>
    refine ⟨?_, ?_, ?_, ?_⟩ <;>
      simp [InMemoryDatabase.clear]

/-- C9: in every reachable store state, an insert ignores the id field of
its input, returns exactly the current next-id counter (a positive id not
yet present in the map, hence never returned by an earlier insert of the
same kind since the last reset), and bumps the counter by one; `clear`
returns the store to the freshly-initialized state, so both collections
are empty and the next insert restarts the id sequence of a fresh store. -/
theorem store_id_spec (db : InMemoryDatabase) (u : contracts.User)
    (o : contracts.Order) (j k : Int)
    (hr : InMemoryDatabase.Reachable db) :
    InMemoryDatabase.saveUser db { u with id := j } =
        InMemoryDatabase.saveUser db u ∧
      (InMemoryDatabase.saveUser db u).fst = db.next_user_id ∧
      (InMemoryDatabase.saveUser db u).snd.next_user_id =
        db.next_user_id + 1 ∧
      0 < (InMemoryDatabase.saveUser db u).fst ∧
      InMemoryDatabase.findUserById db
          (InMemoryDatabase.saveUser db u).fst = none ∧
      InMemoryDatabase.saveOrder db { o with id := k } =
        InMemoryDatabase.saveOrder db o ∧
      (InMemoryDatabase.saveOrder db o).fst = db.next_order_id ∧
      (InMemoryDatabase.saveOrder db o).snd.next_order_id =
        db.next_order_id + 1 ∧
      0 < (InMemoryDatabase.saveOrder db o).fst ∧
      InMemoryDatabase.findOrderById db
          (InMemoryDatabase.saveOrder db o).fst = none ∧
      InMemoryDatabase.clear db = InMemoryDatabase.init ∧
      (InMemoryDatabase.clear db).users = [] ∧
      (InMemoryDatabase.clear db).orders = [] ∧
      InMemoryDatabase.saveUser (InMemoryDatabase.clear db) u =
        InMemoryDatabase.saveUser InMemoryDatabase.init u ∧
      InMemoryDatabase.saveOrder (InMemoryDatabase.clear db) o =
        InMemoryDatabase.saveOrder InMemoryDatabase.init o ∧
      (InMemoryDatabase.saveUser (InMemoryDatabase.clear db) u).fst = 1 ∧
      (InMemoryDatabase.saveOrder (InMemoryDatabase.clear db) o).fst = 1 := by
  obtain ⟨h1, h2, h3, h4⟩ := reachable_idInv hr
  refine ⟨rfl, rfl, rfl, ?_, ?_, rfl, rfl, rfl, ?_, ?_, rfl, rfl, rfl, rfl,
    rfl, rfl, rfl⟩
  · show (0 : Int) < db.next_user_id
    omega
  · show mapFind db.next_user_id db.users = none
    exact mapFind_eq_none (fun p hp => ne_of_lt (h1 p hp))
  · show (0 : Int) < db.next_order_id
    omega
  · show mapFind db.next_order_id db.orders = none
    exact mapFind_eq_none (fun p hp => ne_of_lt (h2 p hp))

/-- C9 witness: on the freshly-initialized store both inserts hand out id 1,
id-field inputs 7 and 9 notwithstanding, and the id is not yet taken. -/
theorem store_id_spec_witness :
    InMemoryDatabase.saveUser InMemoryDatabase.init
        { sampleUser with id := 7 } =
      InMemoryDatabase.saveUser InMemoryDatabase.init sampleUser ∧
      (InMemoryDatabase.saveUser InMemoryDatabase.init sampleUser).fst = 1 ∧
      InMemoryDatabase.findUserById InMemoryDatabase.init
          (InMemoryDatabase.saveUser InMemoryDatabase.init sampleUser).fst =
        none := by
  have h := store_id_spec InMemoryDatabase.init sampleUser
    samplePendingOrder 7 9 InMemoryDatabase.Reachable.init
  exact ⟨h.1, h.2.1, h.2.2.2.2.1⟩

end services
